import Mathlib

/-! Verification of the ruma-identifiers crate (Matrix identifier parsing,
formatting and validation). Rust strings are modelled as lists of Unicode
characters; Rust byte-level operations (`str::len`, byte-index slicing) are
modelled through explicit UTF-8 character sizes, so that a slice taken at a
byte offset that is out of bounds or not a character boundary is represented
as a panic. External collaborators (the `url` crate's authority parser and
the `rand` crate's ASCII generator) are modelled from the specification's
interface descriptions. -/

/-- A Rust string slice, modelled as its list of Unicode characters. -/
abbrev Str : Type := List Char

/-- UTF-8 byte size of one character (1 to 4 bytes). -/
def utf8SizeC (c : Char) : Nat :=
  if c.toNat < 128 then 1
  else if c.toNat < 2048 then 2
  else if c.toNat < 65536 then 3
  else 4

/-- UTF-8 byte length of a string, as Rust `str::len`. -/
def utf8Len : Str → Nat
  | [] => 0
  | c :: cs => utf8SizeC c + utf8Len cs

/-- Rust `Iterator::position`: index of the first character satisfying `p`. -/
def position (p : Char → Bool) : Str → Option Nat
  | [] => none
  | c :: cs => if p c then some 0 else (position p cs).map (fun i => i + 1)

/-- The first `n` BYTES of a string: `some` prefix when byte offset `n` is a
character boundary within the string, `none` (a Rust slicing panic) otherwise. -/
def byteTake : Str → Nat → Option Str
  | _, 0 => some []
  | [], _ + 1 => none
  | c :: cs, n + 1 =>
    if utf8SizeC c ≤ n + 1 then (byteTake cs (n + 1 - utf8SizeC c)).map (fun t => c :: t)
    else none

/-- Everything after the first `n` BYTES of a string: `some` suffix when byte
offset `n` is a character boundary (possibly the end), `none` otherwise. -/
def byteDropO : Str → Nat → Option Str
  | s, 0 => some s
  | [], _ + 1 => none
  | c :: cs, n + 1 => if utf8SizeC c ≤ n + 1 then byteDropO cs (n + 1 - utf8SizeC c) else none

/-- Rust byte-range slice `&s[a..b]`: `none` models the slicing panic. -/
def byteSlice (s : Str) (a b : Nat) : Option Str :=
  if a ≤ b then (byteDropO s a).bind (fun t => byteTake t (b - a)) else none

/-- The crate's error taxonomy (`Error` in src/src/lib.rs, which extends the
one in src/src/error.rs with `InvalidCharacters`). -/
inductive Error : Type
  | InvalidCharacters
  | InvalidHost
  | MaximumLengthExceeded
  | MinimumLengthNotSatisfied
  | MissingDelimiter
  | MissingSigil
  deriving DecidableEq

/-- Outcome of a Rust computation that can return a value, return an error,
or panic. -/
inductive ParseResult (α : Type) : Type
  | ok (a : α)
  | err (e : Error)
  | panic
  deriving DecidableEq

deriving instance DecidableEq for Except

/-- Numeric value of an ASCII digit character. -/
def charVal (c : Char) : Nat := c.toNat - 48

/-- Value of a decimal digit string (Rust's `str::parse` on all-digit input). -/
def charsToNat (ds : Str) : Nat := ds.foldl (fun a c => 10 * a + charVal c) 0

/-- Decimal rendering, with explicit fuel for structural recursion. -/
def natToCharsAux : Nat → Nat → Str
  | 0, _ => []
  | _ + 1, 0 => []
  | fuel + 1, n + 1 => natToCharsAux fuel ((n + 1) / 10) ++ [Nat.digitChar ((n + 1) % 10)]

/-- Decimal rendering of a number (Rust `Display` for `u16`). -/
def natToChars (n : Nat) : Str := if n = 0 then ['0'] else natToCharsAux n n

/-- The user-localpart character class `[a-z0-9._=-]` of the regex
`\A[a-z0-9._=-]+\z` in src/src/lib.rs. -/
def localpart_char (c : Char) : Bool :=
  (decide (97 ≤ c.toNat) && decide (c.toNat ≤ 122)) ||
  (decide (48 ≤ c.toNat) && decide (c.toNat ≤ 57)) ||
  c == '.' || c == '_' || c == '=' || c == '-'

/-- The user-localpart regex `\A[a-z0-9._=-]+\z`: non-empty, all characters
in the class. -/
def USER_LOCALPART_PATTERN (s : Str) : Bool := !s.isEmpty && s.all localpart_char

/-- ASCII decimal digit. -/
def isDigitC (c : Char) : Bool := decide (48 ≤ c.toNat) && decide (c.toNat ≤ 57)

/-- Characters the modelled host parser accepts in a domain name:
lowercase ASCII letters, digits, `.`, `-` and `_`. -/
def isHostChar (c : Char) : Bool :=
  (decide (97 ≤ c.toNat) && decide (c.toNat ≤ 122)) || isDigitC c ||
  c == '.' || c == '-' || c == '_'

/-- The character set of the random-token collaborator
(`rand`'s `gen_ascii_chars`): ASCII alphanumeric characters. -/
def gen_ascii_char (c : Char) : Bool :=
  (decide (65 ≤ c.toNat) && decide (c.toNat ≤ 90)) ||
  (decide (97 ≤ c.toNat) && decide (c.toNat ≤ 122)) || isDigitC c

/-- Modelled from the spec: the external host-parsing collaborator
`parse_authority(host[:port])`, standing for the url crate's
`Url::parse("https://…")` plus `url.host()` and `url.port().unwrap_or(443)`
inside `parse_id`. It returns the normalized host rendering and the port
(443 when the port is absent, empty, or explicitly the https default), and
fails on an empty or malformed host, a non-numeric port, or a port above
65535. The model covers the domain-name host form. -/
def parse_authority (s : Str) : Option (Str × Nat) :=
  match position (fun c => c == ':') s with
  | none => if s ≠ [] ∧ s.all isHostChar = true then some (s, 443) else none
  | some i =>
    let host := s.take i
    let port_str := s.drop (i + 1)
    if host ≠ [] ∧ host.all isHostChar = true then
      if port_str = [] then some (host, 443)
      else if port_str.all isDigitC = true ∧ charsToNat port_str ≤ 65535 then
        some (host, charsToNat port_str)
      else none
    else none

/-- All sigil identifiers must be 255 bytes or less. -/
def MAX_BYTES : Nat := 255

/-- The minimum number of characters an ID can be (the source compares the
byte length against it). -/
def MIN_CHARS : Nat := 4

/-- The number of bytes in a valid sigil. -/
def SIGIL_BYTES : Nat := 1

/-- `parse_id` from src/src/lib.rs, parameterized by the host-parsing
collaborator `hp`. The byte-length checks, the sigil check, the character
scan for the first `:`, and — faithfully to the source — the use of the
delimiter's CHARACTER position as a BYTE index in the two slices
`&id[1..delimiter_index]` and `&id[delimiter_index + SIGIL_BYTES..]`. -/
def parse_id (hp : Str → Option (Str × Nat)) (required_sigil : Char) (id : Str) :
    ParseResult (Str × Str × Nat) :=
  if utf8Len id > MAX_BYTES then .err .MaximumLengthExceeded
  else if utf8Len id < MIN_CHARS then .err .MinimumLengthNotSatisfied
  else
    match id with
    | [] => .panic
    | sigil :: rest =>
      if sigil ≠ required_sigil then .err .MissingSigil
      else
        match position (fun c => c == ':') rest with
        | none => .err .MissingDelimiter
        | some index =>
          let delimiter_index := index + 1
          match byteSlice id 1 delimiter_index, byteDropO id (delimiter_index + SIGIL_BYTES) with
          | some localpart, some raw_host =>
            match hp raw_host with
            | some (host, port) => .ok (localpart, host, port)
            | none => .err .InvalidHost
          | some _, none => .panic
          | none, _ => .panic

/-- Canonical `host[:port]` rendering used by `display`: the port is omitted
exactly when it is 443. -/
def renderAuth (hostname : Str) (port : Nat) : Str :=
  if port = 443 then hostname else hostname ++ ':' :: natToChars port

/-- `display` from src/src/lib.rs: canonical rendering of a sigil ID. -/
def display (sigil : Char) (localpart : Str) (hostname : Str) (port : Nat) : Str :=
  if port = 443 then sigil :: (localpart ++ ':' :: hostname)
  else sigil :: (localpart ++ ':' :: (hostname ++ ':' :: natToChars port))

/-- `generate_localpart` from src/src/lib.rs:
`thread_rng().gen_ascii_chars().take(length).collect()`, with the random
character stream of the external collaborator passed in explicitly. -/
def generate_localpart (randoms : Str) (length : Nat) : Str := randoms.take length

/-- A Matrix event ID. -/
structure EventId : Type where
  hostname : Str
  opaque_id : Str
  port : Nat
  deriving DecidableEq

/-- A Matrix room ID. -/
structure RoomId : Type where
  hostname : Str
  opaque_id : Str
  port : Nat
  deriving DecidableEq

/-- A Matrix room alias ID (the `alias` field is named `alias_id` here). -/
structure RoomAliasId : Type where
  alias_id : Str
  hostname : Str
  port : Nat
  deriving DecidableEq

/-- The localpart of a Matrix user ID. -/
structure UserLocalpart : Type where
  val : Str
  deriving DecidableEq

/-- A Matrix user ID. -/
structure UserId : Type where
  hostname : Str
  localpart : UserLocalpart
  port : Nat
  deriving DecidableEq

/-- `Display for EventId`. -/
def EventId.to_string (x : EventId) : Str := display '$' x.opaque_id x.hostname x.port

/-- `Display for RoomId`. -/
def RoomId.to_string (x : RoomId) : Str := display '!' x.opaque_id x.hostname x.port

/-- `Display for RoomAliasId`. -/
def RoomAliasId.to_string (x : RoomAliasId) : Str := display '#' x.alias_id x.hostname x.port

/-- `Display for UserLocalpart`. -/
def UserLocalpart.to_string (x : UserLocalpart) : Str := x.val

/-- `Display for UserId`. -/
def UserId.to_string (x : UserId) : Str := display '@' x.localpart.val x.hostname x.port

/-- `TryFrom<&str> for EventId`. -/
def EventId.try_from (event_id : Str) : ParseResult EventId :=
  match parse_id parse_authority '$' event_id with
  | .ok (opaque_id, host, port) => .ok ⟨host, opaque_id, port⟩
  | .err e => .err e
  | .panic => .panic

/-- `TryFrom<&str> for RoomId`. -/
def RoomId.try_from (room_id : Str) : ParseResult RoomId :=
  match parse_id parse_authority '!' room_id with
  | .ok (opaque_id, host, port) => .ok ⟨host, opaque_id, port⟩
  | .err e => .err e
  | .panic => .panic

/-- `TryFrom<&str> for RoomAliasId`. -/
def RoomAliasId.try_from (room_id : Str) : ParseResult RoomAliasId :=
  match parse_id parse_authority '#' room_id with
  | .ok (alias_id, host, port) => .ok ⟨alias_id, host, port⟩
  | .err e => .err e
  | .panic => .panic

/-- `TryFrom<&str> for UserLocalpart`: regex validation, then wrap. -/
def UserLocalpart.try_from (localpart : Str) : Except Error UserLocalpart :=
  if USER_LOCALPART_PATTERN localpart = true then .ok ⟨localpart⟩
  else .error .InvalidCharacters

/-- `TryFrom<&str> for UserId`: shared parse, then localpart validation. -/
def UserId.try_from (user_id : Str) : ParseResult UserId :=
  match parse_id parse_authority '@' user_id with
  | .ok (localpart, host, port) =>
    match UserLocalpart.try_from localpart with
    | .ok ul => .ok ⟨host, ul, port⟩
    | .error e => .err e
  | .err e => .err e
  | .panic => .panic

/-- `EventId::new`: 18 random characters, candidate `$<random>:server`,
then the shared parse. -/
def EventId.new (randoms : Str) (server_name : Str) : ParseResult EventId :=
  match parse_id parse_authority '$' ('$' :: (generate_localpart randoms 18 ++ ':' :: server_name)) with
  | .ok (opaque_id, host, port) => .ok ⟨host, opaque_id, port⟩
  | .err e => .err e
  | .panic => .panic

/-- `RoomId::new`: 18 random characters, candidate `!<random>:server`,
then the shared parse. -/
def RoomId.new (randoms : Str) (server_name : Str) : ParseResult RoomId :=
  match parse_id parse_authority '!' ('!' :: (generate_localpart randoms 18 ++ ':' :: server_name)) with
  | .ok (opaque_id, host, port) => .ok ⟨host, opaque_id, port⟩
  | .err e => .err e
  | .panic => .panic

/-- `UserLocalpart::new`: 12 random characters, wrapped with NO validation. -/
def UserLocalpart.new (randoms : Str) : UserLocalpart := ⟨generate_localpart randoms 12⟩

/-- `UserId::new`: generated localpart, candidate `@<localpart>:server`,
shared parse; the parsed localpart is discarded and the generated
`UserLocalpart` is stored as-is. -/
def UserId.new (randoms : Str) (server_name : Str) : ParseResult UserId :=
  match parse_id parse_authority '@' ('@' :: ((UserLocalpart.new randoms).val ++ ':' :: server_name)) with
  | .ok (_, host, port) => .ok ⟨host, UserLocalpart.new randoms, port⟩
  | .err e => .err e
  | .panic => .panic

/-- Room version identifiers cannot be more than 32 code points. -/
def MAX_CODE_POINTS : Nat := 32

/-- Inner representation of a room version. -/
inductive InnerRoomVersionId : Type
  | Version1
  | Version2
  | Version3
  | Version4
  | Version5
  | Custom (s : Str)
  deriving DecidableEq

/-- A Matrix room version ID. -/
structure RoomVersionId : Type where
  inner : InnerRoomVersionId
  deriving DecidableEq

/-- `RoomVersionId::version_1`. -/
def RoomVersionId.version_1 : RoomVersionId := ⟨.Version1⟩

/-- `RoomVersionId::version_2`. -/
def RoomVersionId.version_2 : RoomVersionId := ⟨.Version2⟩

/-- `RoomVersionId::version_3`. -/
def RoomVersionId.version_3 : RoomVersionId := ⟨.Version3⟩

/-- `RoomVersionId::version_4`. -/
def RoomVersionId.version_4 : RoomVersionId := ⟨.Version4⟩

/-- `RoomVersionId::version_5`. -/
def RoomVersionId.version_5 : RoomVersionId := ⟨.Version5⟩

/-- `RoomVersionId::custom`: wraps the string with NO validation. -/
def RoomVersionId.custom (id : Str) : RoomVersionId := ⟨.Custom id⟩

/-- `RoomVersionId::is_custom`. -/
def RoomVersionId.is_custom (x : RoomVersionId) : Bool :=
  match x.inner with
  | .Custom _ => true
  | _ => false

/-- `RoomVersionId::is_official`. -/
def RoomVersionId.is_official (x : RoomVersionId) : Bool := !x.is_custom

/-- `RoomVersionId::is_version_1`. -/
def RoomVersionId.is_version_1 (x : RoomVersionId) : Bool :=
  decide (x.inner = InnerRoomVersionId.Version1)

/-- `RoomVersionId::is_version_2`. -/
def RoomVersionId.is_version_2 (x : RoomVersionId) : Bool :=
  decide (x.inner = InnerRoomVersionId.Version2)

/-- `RoomVersionId::is_version_3`. -/
def RoomVersionId.is_version_3 (x : RoomVersionId) : Bool :=
  decide (x.inner = InnerRoomVersionId.Version3)

/-- `RoomVersionId::is_version_4`. -/
def RoomVersionId.is_version_4 (x : RoomVersionId) : Bool :=
  decide (x.inner = InnerRoomVersionId.Version4)

/-- `RoomVersionId::is_version_5`. -/
def RoomVersionId.is_version_5 (x : RoomVersionId) : Bool :=
  decide (x.inner = InnerRoomVersionId.Version5)

/-- `Display for RoomVersionId`. -/
def RoomVersionId.to_string (x : RoomVersionId) : Str :=
  match x.inner with
  | .Version1 => ['1']
  | .Version2 => ['2']
  | .Version3 => ['3']
  | .Version4 => ['4']
  | .Version5 => ['5']
  | .Custom v => v

/-- `TryFrom<&str> for RoomVersionId`. -/
def RoomVersionId.try_from (room_version_id : Str) : Except Error RoomVersionId :=
  if room_version_id = ['1'] then .ok ⟨.Version1⟩
  else if room_version_id = ['2'] then .ok ⟨.Version2⟩
  else if room_version_id = ['3'] then .ok ⟨.Version3⟩
  else if room_version_id = ['4'] then .ok ⟨.Version4⟩
  else if room_version_id = ['5'] then .ok ⟨.Version5⟩
  else if room_version_id = [] then .error .MinimumLengthNotSatisfied
  else if room_version_id.length > MAX_CODE_POINTS then .error .MaximumLengthExceeded
  else .ok ⟨.Custom room_version_id⟩

theorem utf8SizeC_pos (c : Char) : 1 ≤ utf8SizeC c := by
  unfold utf8SizeC
  split_ifs <;> omega

theorem utf8SizeC_eq_one (c : Char) (h : c.toNat < 128) : utf8SizeC c = 1 := by
  unfold utf8SizeC
  rw [if_pos h]

theorem utf8Len_append (a b : Str) : utf8Len (a ++ b) = utf8Len a + utf8Len b := by
  induction a with
  | nil => simp [utf8Len]
  | cons c cs ih =>
    show utf8SizeC c + utf8Len (cs ++ b) = utf8SizeC c + utf8Len cs + utf8Len b
    rw [ih]
    omega

theorem length_le_utf8Len (l : Str) : l.length ≤ utf8Len l := by
  induction l with
  | nil => simp [utf8Len]
  | cons c cs ih =>
    have := utf8SizeC_pos c
    simp only [List.length_cons, utf8Len]
    omega

theorem utf8Len_ascii (l : Str) (h : ∀ c ∈ l, utf8SizeC c = 1) : utf8Len l = l.length := by
  induction l with
  | nil => simp [utf8Len]
  | cons c cs ih =>
    have hc := h c (by simp)
    have ih' := ih (fun d hd => h d (by simp [hd]))
    simp only [utf8Len, List.length_cons, hc, ih']
    omega

theorem position_eq_none (p : Char → Bool) (l : Str) (h : ∀ c ∈ l, p c = false) :
    position p l = none := by
  induction l with
  | nil => rfl
  | cons c cs ih =>
    have hc := h c (by simp)
    simp [position, hc, ih (fun d hd => h d (by simp [hd]))]

theorem position_append (p : Char → Bool) (a : Str) (c0 : Char) (b : Str)
    (ha : ∀ c ∈ a, p c = false) (hc : p c0 = true) :
    position p (a ++ c0 :: b) = some a.length := by
  induction a with
  | nil => simp [position, hc]
  | cons x xs ih =>
    have hx := ha x (by simp)
    have ih' := ih (fun d hd => ha d (by simp [hd]))
    simp [position, hx, ih']

theorem position_eq_some (p : Char → Bool) (l : Str) (i : Nat)
    (h : position p l = some i) :
    ∃ a c0 b, l = a ++ c0 :: b ∧ a.length = i ∧ (∀ c ∈ a, p c = false) ∧ p c0 = true := by
  induction l generalizing i with
  | nil => simp [position] at h
  | cons c cs ih =>
    by_cases hc : p c = true
    · simp [position, hc] at h
      exact ⟨[], c, cs, by simp, by simp [← h], by simp, hc⟩
    · have hc' : p c = false := by
        cases hpc : p c
        · rfl
        · exact absurd hpc hc
      simp only [position, hc', Bool.false_eq_true, if_false, Option.map_eq_some'] at h
      obtain ⟨j, hj, hji⟩ := h
      obtain ⟨a, c0, b, hl, hlen, hall, hc0⟩ := ih j hj
      exact ⟨c :: a, c0, b, by simp [hl], by simp [hlen, ← hji], by
        intro d hd
        rcases List.mem_cons.mp hd with rfl | hd'
        · exact hc'
        · exact hall d hd', hc0⟩

theorem byteDropO_zero (s : Str) : byteDropO s 0 = some s := by
  cases s <;> rfl

theorem byteTake_zero (s : Str) : byteTake s 0 = some [] := by
  cases s <;> rfl

theorem byteTake_spec (xs : Str) : ∀ (n : Nat) (ys : Str), byteTake xs n = some ys →
    ∃ zs, xs = ys ++ zs ∧ utf8Len ys = n := by
  induction xs with
  | nil =>
    intro n ys h
    cases n with
    | zero =>
      rw [byteTake_zero] at h
      have hys : ys = [] := by simpa using h.symm
      subst hys
      exact ⟨[], by simp, rfl⟩
    | succ m => simp [byteTake] at h
  | cons c cs ih =>
    intro n ys h
    cases n with
    | zero =>
      rw [byteTake_zero] at h
      have hys : ys = [] := by simpa using h.symm
      subst hys
      exact ⟨c :: cs, by simp, rfl⟩
    | succ m =>
      by_cases hsz : utf8SizeC c ≤ m + 1
      · rw [byteTake, if_pos hsz] at h
        obtain ⟨ys', h1, h2⟩ := Option.map_eq_some'.mp h
        obtain ⟨zs, hzs, hlen⟩ := ih _ _ h1
        refine ⟨zs, by simp [← h2, hzs], ?_⟩
        simp only [← h2, utf8Len]
        omega
      · rw [byteTake, if_neg hsz] at h
        exact absurd h (by simp)

theorem byteTake_ascii (l r : Str) (h : ∀ c ∈ l, utf8SizeC c = 1) :
    byteTake (l ++ r) l.length = some l := by
  induction l with
  | nil => simp [byteTake]
  | cons c cs ih =>
    have hc := h c (by simp)
    have ih' := ih (fun d hd => h d (by simp [hd]))
    show byteTake (c :: (cs ++ r)) (cs.length + 1) = some (c :: cs)
    rw [byteTake, if_pos (by omega)]
    rw [show cs.length + 1 - utf8SizeC c = cs.length from by omega]
    rw [ih']
    rfl

theorem byteDropO_spec (xs : Str) : ∀ (n : Nat) (zs : Str), byteDropO xs n = some zs →
    ∃ ys, xs = ys ++ zs ∧ utf8Len ys = n := by
  induction xs with
  | nil =>
    intro n zs h
    cases n with
    | zero =>
      simp [byteDropO] at h
      exact ⟨[], by simp [← h], by simp [utf8Len]⟩
    | succ m => simp [byteDropO] at h
  | cons c cs ih =>
    intro n zs h
    cases n with
    | zero =>
      simp [byteDropO] at h
      exact ⟨[], by simp [← h], by simp [utf8Len]⟩
    | succ m =>
      by_cases hsz : utf8SizeC c ≤ m + 1
      · rw [byteDropO, if_pos hsz] at h
        obtain ⟨ys, hys, hlen⟩ := ih _ _ h
        refine ⟨c :: ys, by simp [hys], ?_⟩
        simp only [utf8Len]
        omega
      · rw [byteDropO, if_neg hsz] at h
        exact absurd h (by simp)

theorem byteDropO_append (xs ys : Str) : byteDropO (xs ++ ys) (utf8Len xs) = some ys := by
  induction xs with
  | nil => simp [byteDropO, utf8Len]
  | cons c cs ih =>
    have hpos := utf8SizeC_pos c
    obtain ⟨m, hm⟩ : ∃ m, utf8SizeC c + utf8Len cs = m + 1 :=
      ⟨utf8SizeC c + utf8Len cs - 1, by omega⟩
    show byteDropO (c :: (cs ++ ys)) (utf8Len (c :: cs)) = some ys
    rw [show utf8Len (c :: cs) = utf8SizeC c + utf8Len cs from rfl, hm]
    rw [byteDropO, if_pos (by omega)]
    rw [show m + 1 - utf8SizeC c = utf8Len cs from by omega]
    exact ih

theorem byteDropO_cons_one (c : Char) (cs : Str) (h : utf8SizeC c = 1) :
    byteDropO (c :: cs) 1 = some cs := by
  rw [byteDropO, if_pos (by omega)]
  rw [show 1 - utf8SizeC c = 0 from by omega]
  exact byteDropO_zero cs

theorem digit_char_facts : ∀ d : Fin 10, charVal (Nat.digitChar d.val) = d.val ∧
    isDigitC (Nat.digitChar d.val) = true ∧ utf8SizeC (Nat.digitChar d.val) = 1 := by decide

theorem charVal_digitChar (d : Nat) (h : d < 10) : charVal (Nat.digitChar d) = d :=
  (digit_char_facts ⟨d, h⟩).1

theorem isDigitC_digitChar (d : Nat) (h : d < 10) : isDigitC (Nat.digitChar d) = true :=
  (digit_char_facts ⟨d, h⟩).2.1

theorem utf8SizeC_digitChar (d : Nat) (h : d < 10) : utf8SizeC (Nat.digitChar d) = 1 :=
  (digit_char_facts ⟨d, h⟩).2.2

theorem charsToNat_append_digit (ds : Str) (c : Char) :
    charsToNat (ds ++ [c]) = 10 * charsToNat ds + charVal c := by
  simp [charsToNat, List.foldl_append]

theorem charsToNat_natToCharsAux : ∀ (fuel n : Nat), n ≤ fuel →
    charsToNat (natToCharsAux fuel n) = n := by
  intro fuel
  induction fuel with
  | zero =>
    intro n h
    interval_cases n
    rfl
  | succ f ih =>
    intro n h
    cases n with
    | zero => rfl
    | succ m =>
      rw [show natToCharsAux (f + 1) (m + 1) =
          natToCharsAux f ((m + 1) / 10) ++ [Nat.digitChar ((m + 1) % 10)] from rfl]
      rw [charsToNat_append_digit]
      rw [ih ((m + 1) / 10) (by omega)]
      rw [charVal_digitChar _ (Nat.mod_lt _ (by norm_num))]
      omega

theorem charsToNat_natToChars (n : Nat) : charsToNat (natToChars n) = n := by
  unfold natToChars
  by_cases h : n = 0
  · subst h
    rfl
  · rw [if_neg h]
    exact charsToNat_natToCharsAux n n le_rfl

theorem natToCharsAux_mem : ∀ (fuel n : Nat), ∀ c ∈ natToCharsAux fuel n,
    isDigitC c = true ∧ utf8SizeC c = 1 := by
  intro fuel
  induction fuel with
  | zero =>
    intro n c hc
    simp [natToCharsAux] at hc
  | succ f ih =>
    intro n c hc
    cases n with
    | zero => simp [natToCharsAux] at hc
    | succ m =>
      rw [show natToCharsAux (f + 1) (m + 1) =
          natToCharsAux f ((m + 1) / 10) ++ [Nat.digitChar ((m + 1) % 10)] from rfl] at hc
      rcases List.mem_append.mp hc with h1 | h2
      · exact ih _ c h1
      · have hc2 : c = Nat.digitChar ((m + 1) % 10) := by simpa using h2
        subst hc2
        exact ⟨isDigitC_digitChar _ (Nat.mod_lt _ (by norm_num)),
               utf8SizeC_digitChar _ (Nat.mod_lt _ (by norm_num))⟩

theorem natToChars_mem (n : Nat) : ∀ c ∈ natToChars n, isDigitC c = true ∧ utf8SizeC c = 1 := by
  unfold natToChars
  split_ifs with h
  · intro c hc
    have hc' : c = '0' := by simpa using hc
    subst hc'
    exact ⟨by decide, by decide⟩
  · exact natToCharsAux_mem n n

theorem natToChars_ne_nil (n : Nat) : natToChars n ≠ [] := by
  unfold natToChars
  split_ifs with h
  · simp
  · obtain ⟨m, rfl⟩ := Nat.exists_eq_succ_of_ne_zero h
    simp [natToCharsAux]

theorem natToCharsAux_length : ∀ (fuel n k : Nat), n ≤ fuel → n < 10 ^ k →
    (natToCharsAux fuel n).length ≤ k := by
  intro fuel
  induction fuel with
  | zero =>
    intro n k h hk
    interval_cases n
    simp [natToCharsAux]
  | succ f ih =>
    intro n k h hk
    cases n with
    | zero => simp [natToCharsAux]
    | succ m =>
      rw [show natToCharsAux (f + 1) (m + 1) =
          natToCharsAux f ((m + 1) / 10) ++ [Nat.digitChar ((m + 1) % 10)] from rfl]
      simp only [List.length_append, List.length_cons, List.length_nil]
      have hk1 : 1 ≤ k := by
        rcases Nat.eq_zero_or_pos k with hk0 | hk0
        · subst hk0
          simp at hk
        · exact hk0
      obtain ⟨k', rfl⟩ : ∃ k', k = k' + 1 := ⟨k - 1, by omega⟩
      have hdiv : (m + 1) / 10 < 10 ^ k' := by
        rw [Nat.div_lt_iff_lt_mul (by norm_num : 0 < 10)]
        calc m + 1 < 10 ^ (k' + 1) := hk
        _ = 10 ^ k' * 10 := by ring
      have hrec := ih ((m + 1) / 10) k' (by omega) hdiv
      omega

theorem natToChars_length (n k : Nat) (h1 : 1 ≤ k) (h : n < 10 ^ k) :
    (natToChars n).length ≤ k := by
  unfold natToChars
  split_ifs with h0
  · simpa using h1
  · exact natToCharsAux_length n n k le_rfl h

theorem charsToNat_lt (ds : Str) (h : ∀ c ∈ ds, isDigitC c = true) :
    charsToNat ds < 10 ^ ds.length := by
  induction ds using List.reverseRecOn with
  | nil => simp [charsToNat]
  | append_singleton xs c ih =>
    rw [charsToNat_append_digit]
    have hc : charVal c ≤ 9 := by
      have hdig := h c (by simp)
      simp [isDigitC] at hdig
      unfold charVal
      omega
    have hxs := ih (fun d hd => h d (by simp [hd]))
    simp only [List.length_append, List.length_cons, List.length_nil, pow_succ]
    set A := (10 : Nat) ^ xs.length with hA
    omega

theorem isHostChar_ne_colon (c : Char) (h : isHostChar c = true) : (c == ':') = false := by
  have hne : c ≠ ':' := by
    intro hc
    subst hc
    exact absurd h (by decide)
  exact beq_eq_false_iff_ne.mpr hne

theorem isDigitC_ne_colon (c : Char) (h : isDigitC c = true) : (c == ':') = false := by
  have hne : c ≠ ':' := by
    intro hc
    subst hc
    exact absurd h (by decide)
  exact beq_eq_false_iff_ne.mpr hne

theorem utf8SizeC_of_isDigitC (c : Char) (h : isDigitC c = true) : utf8SizeC c = 1 := by
  simp [isDigitC] at h
  exact utf8SizeC_eq_one c (by omega)

theorem utf8SizeC_of_isHostChar (c : Char) (h : isHostChar c = true) : utf8SizeC c = 1 := by
  apply utf8SizeC_eq_one
  simp only [isHostChar, isDigitC, Bool.or_eq_true, Bool.and_eq_true, decide_eq_true_eq,
    beq_iff_eq] at h
  rcases h with ((((⟨h1, h2⟩ | ⟨h1, h2⟩) | rfl) | rfl) | rfl)
  · omega
  · omega
  · decide
  · decide
  · decide

theorem parse_authority_inv (s h : Str) (p : Nat) (hpa : parse_authority s = some (h, p)) :
    h ≠ [] ∧ h.all isHostChar = true ∧ (p = 443 ∨ p ≤ 65535) := by
  unfold parse_authority at hpa
  cases hpos : position (fun c => c == ':') s with
  | none =>
    rw [hpos] at hpa
    split_ifs at hpa with hcond
    simp only [Option.some.injEq, Prod.mk.injEq] at hpa
    obtain ⟨rfl, rfl⟩ := hpa
    exact ⟨hcond.1, hcond.2, Or.inl rfl⟩
  | some i =>
    rw [hpos] at hpa
    simp only at hpa
    split_ifs at hpa with hcond hempty hport
    · simp only [Option.some.injEq, Prod.mk.injEq] at hpa
      obtain ⟨rfl, rfl⟩ := hpa
      exact ⟨hcond.1, hcond.2, Or.inl rfl⟩
    · simp only [Option.some.injEq, Prod.mk.injEq] at hpa
      obtain ⟨rfl, rfl⟩ := hpa
      exact ⟨hcond.1, hcond.2, Or.inr hport.2⟩

theorem parse_authority_render (s h : Str) (p : Nat)
    (hpa : parse_authority s = some (h, p)) :
    parse_authority (renderAuth h p) = some (h, p) := by
  obtain ⟨hne, hall, hp⟩ := parse_authority_inv s h p hpa
  have hcf : ∀ c ∈ h, ((c == ':') = false) :=
    fun c hc => isHostChar_ne_colon c (List.all_eq_true.mp hall c hc)
  unfold renderAuth
  by_cases h443 : p = 443
  · subst h443
    rw [if_pos rfl]
    unfold parse_authority
    rw [position_eq_none _ _ hcf]
    rw [if_pos ⟨hne, hall⟩]
  · rw [if_neg h443]
    unfold parse_authority
    rw [position_append _ h ':' (natToChars p) hcf (by decide)]
    simp only
    have htake : (h ++ ':' :: natToChars p).take h.length = h := List.take_left h _
    have hdrop : (h ++ ':' :: natToChars p).drop (h.length + 1) = natToChars p := by
      rw [show h ++ ':' :: natToChars p = (h ++ [':']) ++ natToChars p from by simp,
          show h.length + 1 = (h ++ [':']).length from by simp]
      exact List.drop_left _ _
    rw [htake, hdrop]
    rw [if_pos ⟨hne, hall⟩]
    rw [if_neg (natToChars_ne_nil p)]
    rw [if_pos ⟨List.all_eq_true.mpr (fun c hc => (natToChars_mem p c hc).1), by
      rw [charsToNat_natToChars]
      rcases hp with h1 | h1
      · exact absurd h1 h443
      · exact h1⟩]
    rw [charsToNat_natToChars]

theorem parse_authority_render_le (s h : Str) (p : Nat)
    (hpa : parse_authority s = some (h, p)) :
    utf8Len (renderAuth h p) ≤ utf8Len s := by
  unfold parse_authority at hpa
  cases hpos : position (fun c => c == ':') s with
  | none =>
    rw [hpos] at hpa
    split_ifs at hpa with hcond
    simp only [Option.some.injEq, Prod.mk.injEq] at hpa
    obtain ⟨rfl, rfl⟩ := hpa
    rw [renderAuth, if_pos rfl]
  | some i =>
    rw [hpos] at hpa
    simp only at hpa
    obtain ⟨a, c0, b, hsplit, hlen, hnotc, hc0⟩ := position_eq_some _ _ _ hpos
    have hc0' : c0 = ':' := by simpa using hc0
    subst hc0'
    have htake : s.take i = a := by
      rw [hsplit, ← hlen]
      exact List.take_left a _
    have hdrop : s.drop (i + 1) = b := by
      rw [hsplit, ← hlen,
          show a ++ ':' :: b = (a ++ [':']) ++ b from by simp,
          show a.length + 1 = (a ++ [':']).length from by simp]
      exact List.drop_left _ _
    rw [htake, hdrop] at hpa
    have hs_len : utf8Len s = utf8Len a + 1 + utf8Len b := by
      rw [hsplit, utf8Len_append]
      show utf8Len a + (utf8SizeC ':' + utf8Len b) = utf8Len a + 1 + utf8Len b
      rw [show utf8SizeC ':' = 1 from by decide]
      omega
    split_ifs at hpa with hcond hempty hport
    · simp only [Option.some.injEq, Prod.mk.injEq] at hpa
      obtain ⟨rfl, rfl⟩ := hpa
      rw [renderAuth, if_pos rfl]
      omega
    · simp only [Option.some.injEq, Prod.mk.injEq] at hpa
      obtain ⟨rfl, rfl⟩ := hpa
      by_cases h443 : charsToNat b = 443
      · rw [renderAuth, if_pos h443]
        omega
      · rw [renderAuth, if_neg h443]
        rw [utf8Len_append]
        have hb_digits : ∀ c ∈ b, isDigitC c = true := List.all_eq_true.mp hport.1
        have hb_ascii : utf8Len b = b.length :=
          utf8Len_ascii b (fun c hc => utf8SizeC_of_isDigitC c (hb_digits c hc))
        have hn_ascii : utf8Len (natToChars (charsToNat b)) = (natToChars (charsToNat b)).length :=
          utf8Len_ascii _ (fun c hc => (natToChars_mem _ c hc).2)
        have hb_ne : b ≠ [] := hempty
        have hb_len1 : 1 ≤ b.length := by
          cases b with
          | nil => exact absurd rfl hb_ne
          | cons x xs => simp
        have hlt : charsToNat b < 10 ^ b.length := charsToNat_lt b hb_digits
        have hnl : (natToChars (charsToNat b)).length ≤ b.length :=
          natToChars_length _ _ hb_len1 hlt
        have : utf8Len (':' :: natToChars (charsToNat b)) =
            1 + utf8Len (natToChars (charsToNat b)) := by
          show utf8SizeC ':' + _ = 1 + _
          rw [show utf8SizeC ':' = 1 from by decide]
        omega

theorem display_renderAuth (sigil : Char) (l h : Str) (p : Nat) :
    display sigil l h p = sigil :: (l ++ ':' :: renderAuth h p) := by
  unfold display renderAuth
  split_ifs with h443 <;> rfl

theorem mem_left_of_concat_eq (l zs a b : Str) (heq : l ++ zs = a ++ b)
    (hle : l.length ≤ a.length) : ∀ c ∈ l, c ∈ a := by
  intro c hc
  have h1 : (l ++ zs).take l.length = l := List.take_left l zs
  rw [heq, List.take_append_of_le_length hle] at h1
  rw [← h1] at hc
  exact List.take_subset _ _ hc

theorem parse_id_shape (hp : Str → Option (Str × Nat)) (sg : Char) (l ra : Str)
    (hsg : utf8SizeC sg = 1)
    (hl1 : ∀ c ∈ l, utf8SizeC c = 1)
    (hlc : ∀ c ∈ l, (c == ':') = false)
    (hmax : ¬ utf8Len (sg :: (l ++ ':' :: ra)) > MAX_BYTES)
    (hmin : ¬ utf8Len (sg :: (l ++ ':' :: ra)) < MIN_CHARS) :
    parse_id hp sg (sg :: (l ++ ':' :: ra)) =
      match hp ra with
      | some (host, port) => .ok (l, host, port)
      | none => .err .InvalidHost := by
  have hslice : byteSlice (sg :: (l ++ ':' :: ra)) 1 (l.length + 1) = some l := by
    unfold byteSlice
    rw [if_pos (by omega)]
    rw [byteDropO_cons_one sg _ hsg]
    show byteTake (l ++ ':' :: ra) (l.length + 1 - 1) = some l
    rw [show l.length + 1 - 1 = l.length from by omega]
    exact byteTake_ascii l _ hl1
  have hlen1 : utf8Len (sg :: (l ++ [':'])) = l.length + 1 + SIGIL_BYTES := by
    show utf8SizeC sg + utf8Len (l ++ [':']) = l.length + 1 + SIGIL_BYTES
    rw [hsg, utf8Len_append, utf8Len_ascii l hl1]
    rw [show utf8Len [':'] = 1 from by decide, show SIGIL_BYTES = 1 from rfl]
    omega
  have hdrop : byteDropO (sg :: (l ++ ':' :: ra)) (l.length + 1 + SIGIL_BYTES) = some ra := by
    rw [show sg :: (l ++ ':' :: ra) = (sg :: (l ++ [':'])) ++ ra from by simp, ← hlen1]
    exact byteDropO_append _ _
  unfold parse_id
  rw [if_neg hmax, if_neg hmin]
  dsimp only
  rw [if_neg (by simp : ¬sg ≠ sg)]
  rw [position_append _ l ':' ra hlc (by decide)]
  dsimp only
  rw [hslice, hdrop]

theorem parse_id_shape_ok (hp : Str → Option (Str × Nat)) (sg : Char) (l ra h : Str) (p : Nat)
    (hsg : utf8SizeC sg = 1)
    (hl1 : ∀ c ∈ l, utf8SizeC c = 1)
    (hlc : ∀ c ∈ l, (c == ':') = false)
    (hmax : ¬ utf8Len (sg :: (l ++ ':' :: ra)) > MAX_BYTES)
    (hmin : ¬ utf8Len (sg :: (l ++ ':' :: ra)) < MIN_CHARS)
    (hhp : hp ra = some (h, p)) :
    parse_id hp sg (sg :: (l ++ ':' :: ra)) = .ok (l, h, p) := by
  rw [parse_id_shape hp sg l ra hsg hl1 hlc hmax hmin, hhp]

theorem parse_id_ok_inv (hp : Str → Option (Str × Nat)) (sg : Char) (s l h : Str) (p : Nat)
    (hok : parse_id hp sg s = .ok (l, h, p)) :
    ¬ utf8Len s > MAX_BYTES ∧ ¬ utf8Len s < MIN_CHARS ∧
    ∃ rest i raw, s = sg :: rest ∧ position (fun c => c == ':') rest = some i ∧
      byteTake rest i = some l ∧ byteDropO s (i + 1 + SIGIL_BYTES) = some raw ∧
      hp raw = some (h, p) := by
  unfold parse_id at hok
  by_cases h1 : utf8Len s > MAX_BYTES
  · rw [if_pos h1] at hok
    exact absurd hok (by simp)
  rw [if_neg h1] at hok
  by_cases h2 : utf8Len s < MIN_CHARS
  · rw [if_pos h2] at hok
    exact absurd hok (by simp)
  rw [if_neg h2] at hok
  refine ⟨h1, h2, ?_⟩
  cases s with
  | nil => simp at hok
  | cons c rest =>
    dsimp only at hok
    by_cases h3 : c ≠ sg
    · rw [if_pos h3] at hok
      exact absurd hok (by simp)
    rw [if_neg h3] at hok
    push_neg at h3
    subst h3
    cases hpos : position (fun c => c == ':') rest with
    | none =>
      rw [hpos] at hok
      exact absurd hok (by simp)
    | some i =>
      rw [hpos] at hok
      dsimp only at hok
      cases hs : byteSlice (c :: rest) 1 (i + 1) with
      | none =>
        rw [hs] at hok
        exact absurd hok (by simp)
      | some lp =>
        cases hd : byteDropO (c :: rest) (i + 1 + SIGIL_BYTES) with
        | none =>
          rw [hs, hd] at hok
          exact absurd hok (by simp)
        | some raw =>
          rw [hs, hd] at hok
          dsimp only at hok
          cases hhp : hp raw with
          | none =>
            rw [hhp] at hok
            exact absurd hok (by simp)
          | some pr =>
            obtain ⟨host, port⟩ := pr
            rw [hhp] at hok
            dsimp only at hok
            simp only [ParseResult.ok.injEq, Prod.mk.injEq] at hok
            obtain ⟨rfl, rfl, rfl⟩ := hok
            refine ⟨rest, i, raw, rfl, hpos, ?_, hd, hhp⟩
            unfold byteSlice at hs
            rw [if_pos (by omega)] at hs
            cases hbd : byteDropO (c :: rest) 1 with
            | none =>
              rw [hbd] at hs
              simp at hs
            | some t =>
              rw [hbd] at hs
              have hble : utf8SizeC c ≤ 1 := by
                by_contra hgt
                rw [byteDropO, if_neg hgt] at hbd
                exact absurd hbd (by simp)
              have hc1 : utf8SizeC c = 1 := le_antisymm hble (utf8SizeC_pos c)
              have ht : t = rest := by
                rw [byteDropO_cons_one c rest hc1] at hbd
                simpa using hbd.symm
              subst ht
              simp only [Option.some_bind] at hs
              rw [show i + 1 - 1 = i from by omega] at hs
              exact hs

theorem utf8SizeC_of_gen_ascii (c : Char) (h : gen_ascii_char c = true) : utf8SizeC c = 1 := by
  apply utf8SizeC_eq_one
  simp only [gen_ascii_char, isDigitC, Bool.or_eq_true, Bool.and_eq_true, decide_eq_true_eq] at h
  rcases h with (⟨h1, h2⟩ | ⟨h1, h2⟩) | ⟨h1, h2⟩ <;> omega

theorem gen_ascii_ne_colon (c : Char) (h : gen_ascii_char c = true) : (c == ':') = false := by
  have hne : c ≠ ':' := by
    intro hc
    subst hc
    exact absurd h (by decide)
  exact beq_eq_false_iff_ne.mpr hne

theorem parse_display_roundtrip_core (sg : Char) (hsg1 : utf8SizeC sg = 1)
    (s l h : Str) (p : Nat)
    (hparse : parse_id parse_authority sg s = .ok (l, h, p))
    (hascii : ∀ c ∈ l, utf8SizeC c = 1)
    (hmin : ¬ utf8Len (display sg l h p) < MIN_CHARS) :
    parse_id parse_authority sg (display sg l h p) = .ok (l, h, p) := by
  obtain ⟨hmax_s, hmin_s, rest, i, raw, hs_eq, hpos, htake, hdrop, hpa⟩ :=
    parse_id_ok_inv _ _ _ _ _ _ hparse
  obtain ⟨zs, hrest_eq, hlen_l⟩ := byteTake_spec rest i l htake
  obtain ⟨a, c0, b, hsplit, halen, hnotc, hc0⟩ := position_eq_some _ _ _ hpos
  have hlc : ∀ c ∈ l, (c == ':') = false := by
    have h1 : l.length ≤ utf8Len l := length_le_utf8Len l
    have hle : l.length ≤ a.length := by omega
    intro c hc
    refine hnotc c (mem_left_of_concat_eq l zs a (c0 :: b) ?_ hle c hc)
    rw [← hrest_eq]
    exact hsplit
  obtain ⟨pre, hpre_eq, hpre_len⟩ := byteDropO_spec s (i + 1 + SIGIL_BYTES) raw hdrop
  have hs_len : utf8Len s = i + 2 + utf8Len raw := by
    rw [hpre_eq, utf8Len_append, hpre_len]
    rw [show SIGIL_BYTES = 1 from rfl]
  have hrle : utf8Len (renderAuth h p) ≤ utf8Len raw := parse_authority_render_le raw h p hpa
  have hdisp_eq : display sg l h p = sg :: (l ++ ':' :: renderAuth h p) :=
    display_renderAuth sg l h p
  have hdisp_len : utf8Len (display sg l h p) = 1 + utf8Len l + 1 + utf8Len (renderAuth h p) := by
    rw [hdisp_eq]
    show utf8SizeC sg + utf8Len (l ++ ':' :: renderAuth h p) = _
    rw [hsg1, utf8Len_append]
    show 1 + (utf8Len l + (utf8SizeC ':' + utf8Len (renderAuth h p))) = _
    rw [show utf8SizeC ':' = 1 from by decide]
    omega
  have hmax_s' : utf8Len s ≤ 255 := by simpa [MAX_BYTES] using hmax_s
  have hmax_d : ¬ utf8Len (display sg l h p) > MAX_BYTES := by
    simp only [MAX_BYTES, gt_iff_lt, not_lt]
    omega
  rw [hdisp_eq]
  rw [hdisp_eq] at hmax_d hmin
  exact parse_id_shape_ok parse_authority sg l (renderAuth h p) h p hsg1 hascii hlc
    hmax_d hmin (parse_authority_render raw h p hpa)

theorem utf8Len_display (sg : Char) (hsg : utf8SizeC sg = 1) (l h : Str) (p : Nat)
    (hl : ∀ c ∈ l, utf8SizeC c = 1) :
    utf8Len (display sg l h p) = 2 + l.length + utf8Len (renderAuth h p) := by
  rw [display_renderAuth]
  show utf8SizeC sg + utf8Len (l ++ ':' :: renderAuth h p) = _
  rw [hsg, utf8Len_append, utf8Len_ascii l hl]
  show 1 + (l.length + (utf8SizeC ':' + utf8Len (renderAuth h p))) = _
  rw [show utf8SizeC ':' = 1 from by decide]
  omega

theorem generate_localpart_ascii (randoms : Str) (n : Nat)
    (hgen : ∀ c ∈ randoms, gen_ascii_char c = true) :
    ∀ c ∈ generate_localpart randoms n, utf8SizeC c = 1 :=
  fun c hc => utf8SizeC_of_gen_ascii c (hgen c (List.take_subset n randoms hc))

theorem generate_localpart_no_colon (randoms : Str) (n : Nat)
    (hgen : ∀ c ∈ randoms, gen_ascii_char c = true) :
    ∀ c ∈ generate_localpart randoms n, (c == ':') = false :=
  fun c hc => gen_ascii_ne_colon c (hgen c (List.take_subset n randoms hc))

theorem generate_localpart_length (randoms : Str) (n : Nat) (hlen : n ≤ randoms.length) :
    (generate_localpart randoms n).length = n := by
  simp [generate_localpart, List.length_take]
  omega

theorem gen_cand_utf8Len (sg : Char) (hsg : utf8SizeC sg = 1) (randoms server : Str)
    (hlen : 18 ≤ randoms.length)
    (hgen : ∀ c ∈ randoms, gen_ascii_char c = true) :
    utf8Len (sg :: (generate_localpart randoms 18 ++ ':' :: server)) = 20 + utf8Len server := by
  show utf8SizeC sg + utf8Len (generate_localpart randoms 18 ++ ':' :: server) = _
  rw [hsg, utf8Len_append, utf8Len_ascii _ (generate_localpart_ascii randoms 18 hgen)]
  rw [generate_localpart_length randoms 18 hlen]
  show 1 + (18 + (utf8SizeC ':' + utf8Len server)) = 20 + utf8Len server
  rw [show utf8SizeC ':' = 1 from by decide]
  omega

theorem parse_id_shape_err (hp : Str → Option (Str × Nat)) (sg : Char) (l ra : Str)
    (hsg : utf8SizeC sg = 1)
    (hl1 : ∀ c ∈ l, utf8SizeC c = 1)
    (hlc : ∀ c ∈ l, (c == ':') = false)
    (hmax : ¬ utf8Len (sg :: (l ++ ':' :: ra)) > MAX_BYTES)
    (hmin : ¬ utf8Len (sg :: (l ++ ':' :: ra)) < MIN_CHARS)
    (hhp : hp ra = none) :
    parse_id hp sg (sg :: (l ++ ':' :: ra)) = .err .InvalidHost := by
  rw [parse_id_shape hp sg l ra hsg hl1 hlc hmax hmin, hhp]

theorem gen_parse_roundtrip_core (sg : Char) (hsg : utf8SizeC sg = 1)
    (randoms server lp host : Str) (port : Nat)
    (hlen : 18 ≤ randoms.length)
    (hgen : ∀ c ∈ randoms, gen_ascii_char c = true)
    (hp : parse_id parse_authority sg (sg :: (generate_localpart randoms 18 ++ ':' :: server)) =
      .ok (lp, host, port)) :
    lp = generate_localpart randoms 18 ∧
    parse_id parse_authority sg (display sg lp host port) = .ok (lp, host, port) := by
  have hla := generate_localpart_ascii randoms 18 hgen
  have hlc := generate_localpart_no_colon randoms 18 hgen
  obtain ⟨hmaxc, hminc, _⟩ := parse_id_ok_inv _ _ _ _ _ _ hp
  have hshape := parse_id_shape parse_authority sg (generate_localpart randoms 18) server
    hsg hla hlc hmaxc hminc
  rw [hp] at hshape
  cases hpa : parse_authority server with
  | none =>
    rw [hpa] at hshape
    exact absurd hshape (by simp)
  | some pr =>
    obtain ⟨h2, p2⟩ := pr
    rw [hpa] at hshape
    dsimp only at hshape
    simp only [ParseResult.ok.injEq, Prod.mk.injEq] at hshape
    obtain ⟨rfl, rfl, rfl⟩ := hshape
    refine ⟨rfl, ?_⟩
    apply parse_display_roundtrip_core sg hsg _ _ _ _ hp hla
    rw [utf8Len_display sg hsg _ _ _ hla, generate_localpart_length randoms 18 hlen]
    simp only [MIN_CHARS]
    omega

/-- C2: code bug. The UserLocalpart pattern invariant `[a-z0-9._=-]+` is NOT
maintained by every constructor: the random generator's character set
(`gen_ascii_chars`) contains uppercase letters such as 'A', and
`UserLocalpart::new` (and `UserId::new`, which reuses the generated localpart)
perform no validation. With a random supply of twelve 'A's, `UserLocalpart.new`
wraps "AAAAAAAAAAAA", which the crate's own validator rejects, and `UserId.new`
succeeds with that localpart, producing a user ID whose canonical string can
no longer be re-parsed. -/
theorem C2_localpart_invariant_code_bug :
    gen_ascii_char 'A' = true ∧
    localpart_char 'A' = false ∧
    (UserLocalpart.new (List.replicate 12 'A')).val = List.replicate 12 'A' ∧
    UserLocalpart.try_from (List.replicate 12 'A') = .error .InvalidCharacters ∧
    UserId.new (List.replicate 12 'A') ("example.com").data =
      .ok ⟨("example.com").data, UserLocalpart.new (List.replicate 12 'A'), 443⟩ ∧
    UserId.try_from
      (UserId.to_string ⟨("example.com").data, UserLocalpart.new (List.replicate 12 'A'), 443⟩) =
      .err .InvalidCharacters := by decide

/-- C3: code bug. `parse_id` is NOT panic-free: the character position of the
first colon is used as a byte index, so for "$é:ab" the slice `&id[1..2]`
falls inside the two-byte character 'é' and panics. -/
theorem C3_parse_panic_code_bug :
    parse_id parse_authority '$' ("$é:ab").data = .panic ∧
    byteSlice ("$é:ab").data 1 2 = none ∧
    utf8Len ("$é:ab").data = 6 := by decide

set_option maxRecDepth 8192 in
/-- C4: code bug. The minimum-length check compares the UTF-8 BYTE length
(`id.len() < 4`), not the character count: "aé:" has 3 characters but 4
bytes, passes the check, and fails later with MissingSigil instead of
MinimumLengthNotSatisfied. The byte-length parts of the claim hold: a
256-byte input fails MaximumLengthExceeded and a 3-byte input fails
MinimumLengthNotSatisfied. -/
theorem C4_min_length_code_bug :
    ("aé:").data.length = 3 ∧
    utf8Len ("aé:").data = 4 ∧
    parse_id parse_authority '$' ("aé:").data = .err .MissingSigil ∧
    parse_id parse_authority '$' ("$a:").data = .err .MinimumLengthNotSatisfied ∧
    utf8Len (List.replicate 256 'a') = 256 ∧
    parse_id parse_authority '$' (List.replicate 256 'a') = .err .MaximumLengthExceeded := by
  decide

/-- C5: format renders ':' followed by the port exactly when the stored port
differs from 443; "$39hvsi03hlne:example.com:443" parses to the same value as
"$39hvsi03hlne:example.com" and formats back without the port suffix. -/
theorem C5_default_port_elision :
    (∀ (sg : Char) (l h : Str) (p : Nat), p = 443 →
      display sg l h p = sg :: (l ++ ':' :: h)) ∧
    (∀ (sg : Char) (l h : Str) (p : Nat), p ≠ 443 →
      display sg l h p = sg :: (l ++ ':' :: (h ++ ':' :: natToChars p))) ∧
    EventId.try_from ("$39hvsi03hlne:example.com:443").data =
      .ok ⟨("example.com").data, ("39hvsi03hlne").data, 443⟩ ∧
    EventId.try_from ("$39hvsi03hlne:example.com").data =
      .ok ⟨("example.com").data, ("39hvsi03hlne").data, 443⟩ ∧
    EventId.to_string ⟨("example.com").data, ("39hvsi03hlne").data, 443⟩ =
      ("$39hvsi03hlne:example.com").data := by
  refine ⟨?_, ?_, by decide, by decide, by decide⟩
  · intro sg l h p hp
    subst hp
    simp [display]
  · intro sg l h p hp
    simp [display, hp]

/-- Witness for C5 at concrete inputs: port 5000 is rendered, port 443 is
elided. -/
theorem C5_default_port_elision_witness :
    display '$' ("x").data ("h").data 5000 =
      '$' :: (("x").data ++ ':' :: (("h").data ++ ':' :: natToChars 5000)) ∧
    display '$' ("x").data ("h").data 443 = '$' :: (("x").data ++ ':' :: ("h").data) :=
  ⟨C5_default_port_elision.2.1 '$' _ _ 5000 (by decide),
   C5_default_port_elision.1 '$' _ _ 443 rfl⟩

/-- C6: `UserLocalpart::try_from` succeeds exactly on non-empty strings whose
characters all lie in `[a-z0-9._=-]`, wrapping exactly the input, and fails
with InvalidCharacters otherwise; `UserId::try_from` applies the validator to
the extracted localpart, so "@CARL:example.com" fails with InvalidCharacters
and "@carl:example.com" succeeds. -/
theorem C6_localpart_validation :
    (∀ s : Str, USER_LOCALPART_PATTERN s = true ↔
      (s ≠ [] ∧ ∀ c ∈ s, localpart_char c = true)) ∧
    (∀ s : Str, USER_LOCALPART_PATTERN s = true → UserLocalpart.try_from s = .ok ⟨s⟩) ∧
    (∀ s : Str, USER_LOCALPART_PATTERN s = false →
      UserLocalpart.try_from s = .error .InvalidCharacters) ∧
    UserId.try_from ("@CARL:example.com").data = .err .InvalidCharacters ∧
    UserId.try_from ("@carl:example.com").data =
      .ok ⟨("example.com").data, ⟨("carl").data⟩, 443⟩ := by
  refine ⟨?_, ?_, ?_, by decide, by decide⟩
  · intro s
    unfold USER_LOCALPART_PATTERN
    simp [List.all_eq_true, List.isEmpty_iff]
  · intro s h
    unfold UserLocalpart.try_from
    rw [if_pos h]
  · intro s h
    unfold UserLocalpart.try_from
    rw [if_neg (by simp [h])]

/-- Witness for C6: the validator rejects "CARL" and accepts "carl". -/
theorem C6_localpart_validation_witness :
    UserLocalpart.try_from ("CARL").data = .error .InvalidCharacters ∧
    UserLocalpart.try_from ("carl").data = .ok ⟨("carl").data⟩ :=
  ⟨C6_localpart_validation.2.2.1 _ (by decide), C6_localpart_validation.2.1 _ (by decide)⟩

/-- C7: room-version parsing returns the official tag for "1".."5", fails
with MinimumLengthNotSatisfied on the empty string, fails with
MaximumLengthExceeded above 32 code points, and otherwise returns the custom
value unchanged with no character-set restriction. -/
theorem C7_room_version_try_from :
    RoomVersionId.try_from ("1").data = .ok RoomVersionId.version_1 ∧
    RoomVersionId.try_from ("2").data = .ok RoomVersionId.version_2 ∧
    RoomVersionId.try_from ("3").data = .ok RoomVersionId.version_3 ∧
    RoomVersionId.try_from ("4").data = .ok RoomVersionId.version_4 ∧
    RoomVersionId.try_from ("5").data = .ok RoomVersionId.version_5 ∧
    RoomVersionId.try_from [] = .error .MinimumLengthNotSatisfied ∧
    (∀ s : Str, 32 < s.length → RoomVersionId.try_from s = .error .MaximumLengthExceeded) ∧
    (∀ s : Str, s ≠ [] → s.length ≤ 32 →
      s ≠ ("1").data → s ≠ ("2").data → s ≠ ("3").data → s ≠ ("4").data → s ≠ ("5").data →
      RoomVersionId.try_from s = .ok (RoomVersionId.custom s)) := by
  refine ⟨by decide, by decide, by decide, by decide, by decide, by decide, ?_, ?_⟩
  · intro s h
    have h1 : s ≠ ['1'] := fun he => by subst he; exact absurd h (by decide)
    have h2 : s ≠ ['2'] := fun he => by subst he; exact absurd h (by decide)
    have h3 : s ≠ ['3'] := fun he => by subst he; exact absurd h (by decide)
    have h4 : s ≠ ['4'] := fun he => by subst he; exact absurd h (by decide)
    have h5 : s ≠ ['5'] := fun he => by subst he; exact absurd h (by decide)
    have hne : s ≠ [] := fun he => by subst he; exact absurd h (by decide)
    unfold RoomVersionId.try_from
    rw [if_neg h1, if_neg h2, if_neg h3, if_neg h4, if_neg h5, if_neg hne,
      if_pos (by simpa [MAX_CODE_POINTS] using h)]
  · intro s hne hle h1 h2 h3 h4 h5
    unfold RoomVersionId.try_from
    rw [if_neg h1, if_neg h2, if_neg h3, if_neg h4, if_neg h5, if_neg hne,
      if_neg (by simp only [MAX_CODE_POINTS, gt_iff_lt, not_lt]; omega)]
    rfl

/-- Witness for C7: a 33-code-point custom string fails, a 32-code-point one
succeeds. -/
theorem C7_room_version_try_from_witness :
    RoomVersionId.try_from (List.replicate 33 'a') = .error .MaximumLengthExceeded ∧
    RoomVersionId.try_from (List.replicate 32 'a') =
      .ok (RoomVersionId.custom (List.replicate 32 'a')) :=
  ⟨C7_room_version_try_from.2.2.2.2.2.2.1 _ (by decide),
   C7_room_version_try_from.2.2.2.2.2.2.2 _ (by decide) (by decide) (by decide) (by decide)
     (by decide) (by decide) (by decide)⟩

/-- C8: `RoomVersionId::custom` succeeds on EVERY string (it is a total
function, with no length validation), and the result is classified as custom,
not official, and renders back to exactly the given string. -/
theorem C8_room_version_custom (s : Str) :
    (RoomVersionId.custom s).is_custom = true ∧
    (RoomVersionId.custom s).is_official = false ∧
    (RoomVersionId.custom s).to_string = s :=
  ⟨rfl, rfl, rfl⟩

/-- C9: for any random supply from the collaborator's alphanumeric character
set with at least 18 characters available, `EventId::new("example.com")`
succeeds, stores the 18 generated characters and host "example.com" with the
default port, and formats to the 31-character string
`'$' ++ <random 18> ++ ":example.com"`; generation against the empty server
name fails (with InvalidHost); and generation fails with an error exactly
when parsing the candidate string `$<random>:server` fails with that error. -/
theorem C9_event_id_generation (randoms : Str)
    (hlen : 18 ≤ randoms.length)
    (hgen : ∀ c ∈ randoms, gen_ascii_char c = true) :
    (EventId.new randoms ("example.com").data =
      .ok ⟨("example.com").data, generate_localpart randoms 18, 443⟩) ∧
    (EventId.to_string ⟨("example.com").data, generate_localpart randoms 18, 443⟩ =
      '$' :: (generate_localpart randoms 18 ++ ':' :: ("example.com").data)) ∧
    ((EventId.to_string ⟨("example.com").data, generate_localpart randoms 18, 443⟩).length
      = 31) ∧
    (EventId.new randoms [] = .err .InvalidHost) ∧
    (∀ (server : Str) (e' : Error), EventId.new randoms server = .err e' ↔
      parse_id parse_authority '$'
        ('$' :: (generate_localpart randoms 18 ++ ':' :: server)) = .err e') := by
  have hla := generate_localpart_ascii randoms 18 hgen
  have hlc := generate_localpart_no_colon randoms 18 hgen
  have hts : EventId.to_string ⟨("example.com").data, generate_localpart randoms 18, 443⟩ =
      '$' :: (generate_localpart randoms 18 ++ ':' :: ("example.com").data) := by
    show display '$' (generate_localpart randoms 18) (("example.com").data) 443 = _
    rw [display, if_pos rfl]
  refine ⟨?_, hts, ?_, ?_, ?_⟩
  · unfold EventId.new
    rw [parse_id_shape_ok parse_authority '$' (generate_localpart randoms 18)
      (("example.com").data) (("example.com").data) 443 (by decide) hla hlc
      (by rw [gen_cand_utf8Len '$' (by decide) randoms _ hlen hgen]; decide)
      (by rw [gen_cand_utf8Len '$' (by decide) randoms _ hlen hgen]; decide)
      (by decide)]
  · rw [hts]
    simp only [List.length_cons, List.length_append,
      generate_localpart_length randoms 18 hlen]
    decide
  · unfold EventId.new
    rw [parse_id_shape_err parse_authority '$' (generate_localpart randoms 18) []
      (by decide) hla hlc
      (by rw [gen_cand_utf8Len '$' (by decide) randoms _ hlen hgen]; decide)
      (by rw [gen_cand_utf8Len '$' (by decide) randoms _ hlen hgen]; decide)
      (by decide)]
  · intro server e'
    unfold EventId.new
    cases parse_id parse_authority '$'
        ('$' :: (generate_localpart randoms 18 ++ ':' :: server)) with
    | ok t =>
      obtain ⟨a, b, c⟩ := t
      simp
    | err x => simp
    | panic => simp

/-- Witness for C9 at the concrete random supply of eighteen 'a's. -/
theorem C9_event_id_generation_witness :
    EventId.new (List.replicate 18 'a') ("example.com").data =
      .ok ⟨("example.com").data, generate_localpart (List.replicate 18 'a') 18, 443⟩ ∧
    (EventId.to_string
      ⟨("example.com").data, generate_localpart (List.replicate 18 'a') 18, 443⟩).length = 31 ∧
    EventId.new (List.replicate 18 'a') [] = .err .InvalidHost := by
  have h := C9_event_id_generation (List.replicate 18 'a') (by decide) (by decide)
  exact ⟨h.1, h.2.2.1, h.2.2.2.1⟩

/-- Counterexample to C10 as stated: in "$ééab:99" the first ':' among the
characters after the sigil is at character index 4, so the claimed split is
local part "ééab" and host remainder "99"; but the code reuses that
character position as a byte index, and parse returns Ok with the
byte-truncated local part "éé" while the host parser receives "b:99"
(host "b", port 99) — a split that is NOT at the first colon. -/
theorem C10_first_colon_split_counterexample :
    position (fun c => c == ':') (("ééab:99").data) = some 4 ∧
    ("ééab:99").data = ("ééab").data ++ ':' :: ("99").data ∧
    parse_id parse_authority '$' (("$ééab:99").data) = .ok (("éé").data, ("b").data, 99) ∧
    ("éé").data ≠ ("ééab").data ∧
    byteDropO (("$ééab:99").data) 6 = some (("b:99").data) := by decide

/-- C10 amended: for every input passing both (byte-)length checks, parse
fails with MissingSigil when the first character differs from the required
sigil; otherwise, if no ':' occurs among the characters after the sigil, it
fails with MissingDelimiter (both unconditional); and the first ':' after
the sigil defines the local-part/host-remainder split only when every
character of the local part is a single-byte (ASCII) character — with a
multi-byte character before the first colon the code byte-truncates the
local part instead (see the counterexample) or panics (C3). -/
theorem C10_sigil_delimiter_errors :
    (∀ (sg : Char) (s : Str), ¬ utf8Len s > MAX_BYTES → ¬ utf8Len s < MIN_CHARS →
      ∀ (c : Char) (rest : Str), s = c :: rest → c ≠ sg →
      parse_id parse_authority sg s = .err .MissingSigil) ∧
    (∀ (sg : Char) (rest : Str), ¬ utf8Len (sg :: rest) > MAX_BYTES →
      ¬ utf8Len (sg :: rest) < MIN_CHARS →
      (∀ c ∈ rest, (c == ':') = false) →
      parse_id parse_authority sg (sg :: rest) = .err .MissingDelimiter) ∧
    (∀ (sg : Char) (l ra : Str), utf8SizeC sg = 1 → (∀ c ∈ l, utf8SizeC c = 1) →
      (∀ c ∈ l, (c == ':') = false) →
      ¬ utf8Len (sg :: (l ++ ':' :: ra)) > MAX_BYTES →
      ¬ utf8Len (sg :: (l ++ ':' :: ra)) < MIN_CHARS →
      parse_id parse_authority sg (sg :: (l ++ ':' :: ra)) =
        match parse_authority ra with
        | some (host, port) => .ok (l, host, port)
        | none => .err .InvalidHost) := by
  refine ⟨?_, ?_, ?_⟩
  · intro sg s hmax hmin c rest heq hne
    subst heq
    unfold parse_id
    rw [if_neg hmax, if_neg hmin]
    dsimp only
    rw [if_pos hne]
  · intro sg rest hmax hmin hnc
    unfold parse_id
    rw [if_neg hmax, if_neg hmin]
    dsimp only
    rw [if_neg (by simp : ¬sg ≠ sg)]
    rw [position_eq_none _ rest hnc]
  · intro sg l ra hsg hl1 hlc hmax hmin
    exact parse_id_shape parse_authority sg l ra hsg hl1 hlc hmax hmin

/-- Witness for C10 at concrete inputs. -/
theorem C10_sigil_delimiter_errors_witness :
    parse_id parse_authority '$' ("abcd").data = .err .MissingSigil ∧
    parse_id parse_authority '$' ("$abc").data = .err .MissingDelimiter ∧
    parse_id parse_authority '$' ('$' :: (("ab").data ++ ':' :: ("cd").data)) =
      .ok (("ab").data, ("cd").data, 443) := by
  refine ⟨C10_sigil_delimiter_errors.1 '$' (("abcd").data) (by decide) (by decide)
      'a' (("bcd").data) (by decide) (by decide),
    C10_sigil_delimiter_errors.2.1 '$' (("abc").data) (by decide) (by decide) (by decide),
    ?_⟩
  rw [C10_sigil_delimiter_errors.2.2 '$' (("ab").data) (("cd").data) (by decide) (by decide)
    (by decide) (by decide) (by decide)]
  decide

/-- Counterexample to C1 as stated: "$:a:443" is accepted by parse (empty
local part, host "a", explicit default port), but its canonical form "$:a"
is only 3 bytes, so re-parsing `format(parse(s))` is REJECTED with
MinimumLengthNotSatisfied rather than accepted. -/
theorem C1_roundtrip_counterexample :
    EventId.try_from ("$:a:443").data = .ok ⟨("a").data, [], 443⟩ ∧
    EventId.to_string ⟨("a").data, [], 443⟩ = ("$:a").data ∧
    EventId.try_from ("$:a").data = .err .MinimumLengthNotSatisfied := by decide

/-- C1 amended: for each of the four sigils, every accepted input whose
extracted local part is all-ASCII and whose canonical form is at least 4
bytes re-parses, after formatting, to the same value; the same parse-inverse
law holds for the EventId and RoomId generate constructors whenever the
random collaborator supplies at least 18 alphanumeric characters. -/
theorem C1_roundtrip_amended :
    (∀ sg : Char, (sg = '$' ∨ sg = '!' ∨ sg = '#' ∨ sg = '@') →
      ∀ (s l h : Str) (p : Nat),
        parse_id parse_authority sg s = .ok (l, h, p) →
        (∀ c ∈ l, utf8SizeC c = 1) →
        4 ≤ utf8Len (display sg l h p) →
        parse_id parse_authority sg (display sg l h p) = .ok (l, h, p)) ∧
    (∀ (randoms server : Str) (e : EventId), 18 ≤ randoms.length →
      (∀ c ∈ randoms, gen_ascii_char c = true) →
      EventId.new randoms server = .ok e →
      EventId.try_from (EventId.to_string e) = .ok e) ∧
    (∀ (randoms server : Str) (r : RoomId), 18 ≤ randoms.length →
      (∀ c ∈ randoms, gen_ascii_char c = true) →
      RoomId.new randoms server = .ok r →
      RoomId.try_from (RoomId.to_string r) = .ok r) := by
  refine ⟨?_, ?_, ?_⟩
  · intro sg hsg s l h p hparse hascii hmin
    have hsg1 : utf8SizeC sg = 1 := by
      rcases hsg with rfl | rfl | rfl | rfl <;> decide
    exact parse_display_roundtrip_core sg hsg1 s l h p hparse hascii
      (by simp only [MIN_CHARS, not_lt]; exact hmin)
  · intro randoms server e hlen hgen hnew
    unfold EventId.new at hnew
    cases hp : parse_id parse_authority '$'
        ('$' :: (generate_localpart randoms 18 ++ ':' :: server)) with
    | err x =>
      rw [hp] at hnew
      exact absurd hnew (by simp)
    | panic =>
      rw [hp] at hnew
      exact absurd hnew (by simp)
    | ok t =>
      obtain ⟨lp, host, port⟩ := t
      rw [hp] at hnew
      dsimp only at hnew
      simp only [ParseResult.ok.injEq] at hnew
      subst hnew
      obtain ⟨hlp, hrt⟩ := gen_parse_roundtrip_core '$' (by decide) randoms server lp host port
        hlen hgen hp
      show EventId.try_from (display '$' lp host port) = _
      unfold EventId.try_from
      rw [hrt]
  · intro randoms server r hlen hgen hnew
    unfold RoomId.new at hnew
    cases hp : parse_id parse_authority '!'
        ('!' :: (generate_localpart randoms 18 ++ ':' :: server)) with
    | err x =>
      rw [hp] at hnew
      exact absurd hnew (by simp)
    | panic =>
      rw [hp] at hnew
      exact absurd hnew (by simp)
    | ok t =>
      obtain ⟨lp, host, port⟩ := t
      rw [hp] at hnew
      dsimp only at hnew
      simp only [ParseResult.ok.injEq] at hnew
      subst hnew
      obtain ⟨hlp, hrt⟩ := gen_parse_roundtrip_core '!' (by decide) randoms server lp host port
        hlen hgen hp
      show RoomId.try_from (display '!' lp host port) = _
      unfold RoomId.try_from
      rw [hrt]

/-- Witness for C1 amended at a concrete accepted input. -/
theorem C1_roundtrip_amended_witness :
    parse_id parse_authority '$' (display '$' ("ab").data ("cd").data 443) =
      .ok (("ab").data, ("cd").data, 443) :=
  C1_roundtrip_amended.1 '$' (Or.inl rfl) (("$ab:cd").data) (("ab").data) (("cd").data) 443
    (by decide) (by decide) (by decide)
